import Mathlib

/-!
Formal model of the yesand-music style-transfer MIDI engine.

The definitions below are a shallow embedding of the C++ sources:
  * StyleTransferAudioProcessor.cpp / StyleTransferAudioProcessor_Humanization.cpp
    (applySwing, applyAccent, applyHumanization, applyStyle),
  * backup_complex_plugin/PluginProcessor.cpp (oscMessageReceived, timerCallback)
    together with the capacity-1024 control-message ring declared in
    PluginProcessor.h.

Doubles are modelled as exact rationals; C++ int casts of doubles are
modelled by truncation toward zero; juce::jlimit is modelled literally.
-/

/-- Kind of a MIDI event, following the data model of the engine:
only note-on events are transformed. -/
inductive EventKind where
  | noteOn
  | noteOff
  | other
deriving DecidableEq, Repr

/-- A timestamped MIDI event: channel, note number, velocity and a
timestamp in seconds (the juce::MidiMessage fields used by the engine). -/
structure Event where
  channel : ℤ
  noteNumber : ℤ
  velocity : ℤ
  timestamp : ℚ
  kind : EventKind
deriving DecidableEq, Repr

/-- The style parameter snapshot (StyleParameters struct). -/
structure StyleParameters where
  swingRatio : ℚ
  accentAmount : ℚ
  humanizeTimingAmount : ℚ
  humanizeVelocityAmount : ℚ
deriving DecidableEq, Repr

/-- juce::jlimit on integers: clamp value to the closed range [lo, hi]. -/
def jlimitInt (lo hi v : ℤ) : ℤ :=
  if v < lo then lo else if hi < v then hi else v

/-- juce::jlimit on rationals (modelling the float overload). -/
def jlimitQ (lo hi v : ℚ) : ℚ :=
  if v < lo then lo else if hi < v then hi else v

/-- C++ static cast from double to int: truncation toward zero. -/
def truncToZero (q : ℚ) : ℤ :=
  if 0 ≤ q then ⌊q⌋ else ⌈q⌉

/-- Fractional part of the beat position of a timestamp (seconds) at the
given tempo: positionInBeats - floor(positionInBeats), as computed at the
top of applySwing and applyAccent. -/
def beatFraction (ts bpm : ℚ) : ℚ :=
  ts * (bpm / 60) - ⌊ts * (bpm / 60)⌋

/-- The swing delay in beats chosen by applySwing: (swingRatio - 0.5) * 0.25
inside the open off-beat window (0.4, 0.6) of the beat fraction, 0 outside. -/
def swingDelayOf (e : Event) (style : StyleParameters) (bpm : ℚ) : ℚ :=
  if 2/5 < beatFraction e.timestamp bpm ∧ beatFraction e.timestamp bpm < 3/5 then
    (style.swingRatio - 1/2) * (1/4)
  else 0

/-- applySwing (StyleTransferAudioProcessor.cpp:244-281): non note-on events
pass through; for a note-on the swing delay in beats is converted to a whole
number of samples (int cast of delayBeats * sampleRate * 60 / bpm) and that
many samples are added to the timestamp; channel, note number and velocity
are copied unchanged. -/
def applySwing (e : Event) (style : StyleParameters) (bpm sampleRate : ℚ) : Event :=
  if e.kind ≠ EventKind.noteOn then e
  else
    { e with timestamp := e.timestamp
        + (truncToZero (swingDelayOf e style bpm * sampleRate * 60 / bpm) : ℚ) / sampleRate }

/-- applyAccent (StyleTransferAudioProcessor.cpp:283-322): non note-on events
pass through; for a note-on in the downbeat window (beatFraction < 0.1 or
> 0.9) the int cast of accentAmount is added to the velocity; the result is
clamped to [0,127]; the timestamp is preserved. -/
def applyAccent (e : Event) (style : StyleParameters) (bpm sampleRate : ℚ) : Event :=
  if e.kind ≠ EventKind.noteOn then e
  else
    { e with velocity := (jlimitInt 0 127
        (if beatFraction e.timestamp bpm < 1/10 ∨ 9/10 < beatFraction e.timestamp bpm
          then e.velocity + truncToZero style.accentAmount
          else e.velocity)) }

lemma jlimitInt_eq_self {v : ℤ} (h0 : 0 ≤ v) (h127 : v ≤ 127) : jlimitInt 0 127 v = v := by
  unfold jlimitInt
  rw [if_neg (by omega), if_neg (by omega)]

lemma truncToZero_zero : truncToZero 0 = 0 := by
  unfold truncToZero
  rw [if_pos le_rfl]
  exact Int.floor_zero

/-- Evaluation helper: truncation of a nonnegative rational via its bounds. -/
lemma truncToZero_eq_of_nonneg {q : ℚ} {n : ℤ} (h0 : 0 ≤ q) (h1 : (n : ℚ) ≤ q)
    (h2 : q < n + 1) : truncToZero q = n := by
  unfold truncToZero
  rw [if_pos h0, Int.floor_eq_iff]
  exact ⟨h1, h2⟩

/-- Evaluation helper: truncation of a negative rational via its bounds. -/
lemma truncToZero_eq_of_neg {q : ℚ} {n : ℤ} (h0 : ¬ 0 ≤ q) (h1 : (n : ℚ) - 1 < q)
    (h2 : q ≤ n) : truncToZero q = n := by
  unfold truncToZero
  rw [if_neg h0, Int.ceil_eq_iff]
  exact ⟨h1, h2⟩

/-- C1 (amended). For every NoteOn event with a valid MIDI velocity, the
output timestamp of applyAccent equals the input timestamp; in the downbeat
window (beatFraction < 0.1 or > 0.9) the output velocity is the original
velocity plus the int cast (truncation toward zero) of accentAmount, clamped
to [0,127]; outside that window the velocity is unchanged. -/
theorem applyAccent_velocity_spec (e : Event) (style : StyleParameters) (bpm sampleRate : ℚ)
    (hk : e.kind = EventKind.noteOn) (h0 : 0 ≤ e.velocity) (h127 : e.velocity ≤ 127) :
    (applyAccent e style bpm sampleRate).timestamp = e.timestamp ∧
    ((beatFraction e.timestamp bpm < 1/10 ∨ 9/10 < beatFraction e.timestamp bpm) →
      (applyAccent e style bpm sampleRate).velocity
        = jlimitInt 0 127 (e.velocity + truncToZero style.accentAmount)) ∧
    (¬ (beatFraction e.timestamp bpm < 1/10 ∨ 9/10 < beatFraction e.timestamp bpm) →
      (applyAccent e style bpm sampleRate).velocity = e.velocity) := by
  unfold applyAccent
  rw [if_neg (by simp [hk])]
  refine ⟨rfl, ?_, ?_⟩
  · intro hwin
    simp only [if_pos hwin]
  · intro hwin
    simp only [if_neg hwin]
    exact jlimitInt_eq_self h0 h127

/-- Witness for the amended C1 theorem at a concrete downbeat input. -/
theorem applyAccent_velocity_spec_witness :
    (applyAccent ⟨1, 60, 80, 0, EventKind.noteOn⟩ ⟨1/2, 157/10, 0, 0⟩ 120 44100).timestamp = 0 ∧
    ((beatFraction 0 120 < 1/10 ∨ 9/10 < beatFraction 0 120) →
      (applyAccent ⟨1, 60, 80, 0, EventKind.noteOn⟩ ⟨1/2, 157/10, 0, 0⟩ 120 44100).velocity
        = jlimitInt 0 127 (80 + truncToZero (157/10))) ∧
    (¬ (beatFraction 0 120 < 1/10 ∨ 9/10 < beatFraction 0 120) →
      (applyAccent ⟨1, 60, 80, 0, EventKind.noteOn⟩ ⟨1/2, 157/10, 0, 0⟩ 120 44100).velocity
        = 80) :=
  applyAccent_velocity_spec ⟨1, 60, 80, 0, EventKind.noteOn⟩ ⟨1/2, 157/10, 0, 0⟩ 120 44100
    rfl (by norm_num) (by norm_num)

/-- C1 counterexample: the claim says round(accentAmount) is added, but the
code adds the int cast (truncation toward zero); at accentAmount = 15.7 and
velocity 80 on a downbeat the code yields 95, the claim demands 96. -/
theorem applyAccent_round_counterexample :
    (applyAccent ⟨1, 60, 80, 0, EventKind.noteOn⟩ ⟨1/2, 157/10, 0, 0⟩ 120 44100).velocity
      ≠ jlimitInt 0 127 (80 + round ((157 : ℚ)/10)) := by
  have hbf : beatFraction 0 120 = 0 := by
    unfold beatFraction
    norm_num
  have htr : truncToZero ((157 : ℚ)/10) = 15 :=
    truncToZero_eq_of_nonneg (by norm_num) (by norm_num) (by norm_num)
  have hrd : round ((157 : ℚ)/10) = 16 := by
    rw [round_eq, Int.floor_eq_iff] <;> norm_num
  unfold applyAccent
  rw [if_neg (by simp)]
  simp only [hrd]
  have hwin : beatFraction (0 : ℚ) 120 < 1/10 ∨ (9:ℚ)/10 < beatFraction 0 120 := by
    rw [hbf]; norm_num
  rw [if_pos hwin, htr]
  unfold jlimitInt
  norm_num

/-- C2 (amended). For every NoteOn event, applySwing changes only the
timestamp: inside the open off-beat window (0.4, 0.6) of the beat fraction it
adds the delay (swingRatio - 0.5) * 0.25 beats converted to seconds and then
quantized to a whole number of samples (int cast of delay * sampleRate *
60 / bpm, divided by sampleRate); outside the window (including exactly 0.4
and 0.6) the timestamp is unchanged. Channel, note number, velocity and kind
are unchanged in both cases. -/
theorem applySwing_timestamp_spec (e : Event) (style : StyleParameters) (bpm sampleRate : ℚ)
    (hk : e.kind = EventKind.noteOn) :
    ((2/5 < beatFraction e.timestamp bpm ∧ beatFraction e.timestamp bpm < 3/5) →
      (applySwing e style bpm sampleRate).timestamp
        = e.timestamp
          + (truncToZero ((style.swingRatio - 1/2) * (1/4) * sampleRate * 60 / bpm) : ℚ)
            / sampleRate) ∧
    (¬ (2/5 < beatFraction e.timestamp bpm ∧ beatFraction e.timestamp bpm < 3/5) →
      (applySwing e style bpm sampleRate).timestamp = e.timestamp) ∧
    (applySwing e style bpm sampleRate).channel = e.channel ∧
    (applySwing e style bpm sampleRate).noteNumber = e.noteNumber ∧
    (applySwing e style bpm sampleRate).velocity = e.velocity ∧
    (applySwing e style bpm sampleRate).kind = e.kind := by
  unfold applySwing
  rw [if_neg (by simp [hk])]
  refine ⟨?_, ?_, rfl, rfl, rfl, rfl⟩
  · intro hwin
    simp only [swingDelayOf, if_pos hwin]
  · intro hwin
    simp only [swingDelayOf, if_neg hwin]
    rw [show (0 : ℚ) * sampleRate * 60 / bpm = 0 by ring, truncToZero_zero]
    push_cast
    rw [zero_div, add_zero]

/-- Witness for the amended C2 theorem at a concrete off-beat input. -/
theorem applySwing_timestamp_spec_witness :
    ((2/5 < beatFraction (1/2) 60 ∧ beatFraction (1/2) 60 < 3/5) →
      (applySwing ⟨1, 60, 80, 1/2, EventKind.noteOn⟩ ⟨3/5, 0, 0, 0⟩ 60 990).timestamp
        = 1/2 + (truncToZero (((3:ℚ)/5 - 1/2) * (1/4) * 990 * 60 / 60) : ℚ) / 990) ∧
    (¬ (2/5 < beatFraction (1/2) 60 ∧ beatFraction (1/2) 60 < 3/5) →
      (applySwing ⟨1, 60, 80, 1/2, EventKind.noteOn⟩ ⟨3/5, 0, 0, 0⟩ 60 990).timestamp = 1/2) ∧
    (applySwing ⟨1, 60, 80, 1/2, EventKind.noteOn⟩ ⟨3/5, 0, 0, 0⟩ 60 990).channel = 1 ∧
    (applySwing ⟨1, 60, 80, 1/2, EventKind.noteOn⟩ ⟨3/5, 0, 0, 0⟩ 60 990).noteNumber = 60 ∧
    (applySwing ⟨1, 60, 80, 1/2, EventKind.noteOn⟩ ⟨3/5, 0, 0, 0⟩ 60 990).velocity = 80 ∧
    (applySwing ⟨1, 60, 80, 1/2, EventKind.noteOn⟩ ⟨3/5, 0, 0, 0⟩ 60 990).kind
      = EventKind.noteOn :=
  applySwing_timestamp_spec ⟨1, 60, 80, 1/2, EventKind.noteOn⟩ ⟨3/5, 0, 0, 0⟩ 60 990 rfl

/-- C2 counterexample: the claim says the delay added inside the window is
exactly (swingRatio - 0.5) * 0.25 beats in seconds, but the code quantizes
the delay to whole samples. At swingRatio 0.6, bpm 60, sampleRate 990 and
timestamp 0.5 s, the exact delay would be 1/40 s but the code adds 24/990 s. -/
theorem applySwing_exact_delay_counterexample :
    (applySwing ⟨1, 60, 80, 1/2, EventKind.noteOn⟩ ⟨3/5, 0, 0, 0⟩ 60 990).timestamp
      ≠ 1/2 + ((3:ℚ)/5 - 1/2) * (1/4) * (60 / 60) := by
  have hbf : beatFraction ((1:ℚ)/2) 60 = 1/2 := by
    unfold beatFraction
    have : ⌊(1:ℚ)/2 * (60/60)⌋ = 0 := by
      rw [Int.floor_eq_iff] <;> norm_num
    rw [this]
    norm_num
  have hwin : 2/5 < beatFraction ((1:ℚ)/2) 60 ∧ beatFraction ((1:ℚ)/2) 60 < 3/5 := by
    rw [hbf]; constructor <;> norm_num
  have htr : truncToZero (((3:ℚ)/5 - 1/2) * (1/4) * 990 * 60 / 60) = 24 :=
    truncToZero_eq_of_nonneg (by norm_num) (by norm_num) (by norm_num)
  have := (applySwing_timestamp_spec ⟨1, 60, 80, 1/2, EventKind.noteOn⟩ ⟨3/5, 0, 0, 0⟩
    60 990 rfl).1 hwin
  rw [this, htr]
  norm_num

/-- C10. For every NoteOn event and positive sample rate, the timestamp
change produced by applySwing, measured in samples, is exactly the truncation
toward zero of swingDelay * sampleRate * 60 / bpm: the applied delay is a
whole number of samples, sub-sample delays being rounded toward zero. -/
theorem applySwing_delay_is_whole_samples (e : Event) (style : StyleParameters)
    (bpm sampleRate : ℚ) (hk : e.kind = EventKind.noteOn) (hsr : 0 < sampleRate) :
    ((applySwing e style bpm sampleRate).timestamp - e.timestamp) * sampleRate
      = truncToZero (swingDelayOf e style bpm * sampleRate * 60 / bpm) := by
  unfold applySwing
  rw [if_neg (by simp [hk])]
  have hne : sampleRate ≠ 0 := ne_of_gt hsr
  field_simp
  ring

/-- Witness for C10 at a concrete input. -/
theorem applySwing_delay_is_whole_samples_witness :
    ((applySwing ⟨1, 60, 80, 1/2, EventKind.noteOn⟩ ⟨3/5, 0, 0, 0⟩ 60 990).timestamp - 1/2) * 990
      = truncToZero (swingDelayOf ⟨1, 60, 80, 1/2, EventKind.noteOn⟩ ⟨3/5, 0, 0, 0⟩ 60
          * 990 * 60 / 60) :=
  applySwing_delay_is_whole_samples ⟨1, 60, 80, 1/2, EventKind.noteOn⟩ ⟨3/5, 0, 0, 0⟩ 60 990
    rfl (by norm_num)

/-- State of the humanization random generator. -/
structure RandomState where
  seed : ℕ
deriving DecidableEq, Repr

/-- Modelled from the spec: one step of the seeded deterministic
pseudo-random generator (juce::Random, external to this repository); the
claims below depend only on it being a deterministic function of the seed. -/
def randStep (s : ℕ) : ℕ := (s * 25214903917 + 11) % (2 ^ 48)

/-- Modelled from the spec: a uniform draw in [0,1) advancing the generator
state (juce::Random::nextDouble, external to this repository). -/
def nextDouble (r : RandomState) : ℚ × RandomState :=
  (((randStep r.seed / 2 ^ 16 % 2 ^ 32 : ℕ) : ℚ) / (2 ^ 32 : ℚ), ⟨randStep r.seed⟩)

/-- Modelled from the spec: a uniform draw in [0, bound) advancing the
generator state (juce::Random::nextInt, external to this repository). -/
def nextIntBounded (bound : ℕ) (r : RandomState) : ℤ × RandomState :=
  (((randStep r.seed / 2 ^ 16 % bound : ℕ) : ℤ), ⟨randStep r.seed⟩)

/-- applyHumanization (StyleTransferAudioProcessor_Humanization.cpp:143-211):
non note-on events pass through; otherwise, when humanizeTimingAmount > 0 a
random timing offset in milliseconds, (draw*2-1) * 5 * amount, converted to
seconds, is added to the timestamp; when humanizeVelocityAmount > 0 a random
integer offset, int cast of (nextInt(21)-10) * amount, is added to the
velocity, which is then clamped to [0,127]. Each zero amount skips its draw
entirely, leaving the generator untouched for that component. -/
def applyHumanization (e : Event) (style : StyleParameters) (bpm sampleRate : ℚ)
    (rng : RandomState) : Event × RandomState :=
  if e.kind ≠ EventKind.noteOn then (e, rng)
  else
    let tdraw : ℚ × RandomState :=
      if 0 < style.humanizeTimingAmount then
        ((((nextDouble rng).1 * 2 - 1) * 5 * style.humanizeTimingAmount) / 1000,
          (nextDouble rng).2)
      else (0, rng)
    let vdraw : ℤ × RandomState :=
      if 0 < style.humanizeVelocityAmount then
        (truncToZero ((((nextIntBounded 21 tdraw.2).1 - 10 : ℤ) : ℚ)
            * style.humanizeVelocityAmount),
          (nextIntBounded 21 tdraw.2).2)
      else (0, tdraw.2)
    ({ e with
        timestamp := e.timestamp + tdraw.1,
        velocity := jlimitInt 0 127 (e.velocity + vdraw.1) }, vdraw.2)

/-- C3. With humanizeTimingAmount = 0 and humanizeVelocityAmount = 0,
applyHumanization returns the event unchanged (timestamp and velocity exact)
and the random generator state unchanged: both zero branches short-circuit
before drawing. -/
theorem applyHumanization_zero_identity (e : Event) (style : StyleParameters)
    (bpm sampleRate : ℚ) (rng : RandomState) (h0 : 0 ≤ e.velocity) (h127 : e.velocity ≤ 127)
    (ht : style.humanizeTimingAmount = 0) (hv : style.humanizeVelocityAmount = 0) :
    applyHumanization e style bpm sampleRate rng = (e, rng) := by
  unfold applyHumanization
  split
  · rfl
  · rw [ht, hv]
    simp only [lt_irrefl, if_false, add_zero]
    rw [jlimitInt_eq_self h0 h127]

/-- Witness for C3 at a concrete note-on event and zeroed amounts. -/
theorem applyHumanization_zero_identity_witness :
    applyHumanization ⟨1, 60, 80, 1/2, EventKind.noteOn⟩ ⟨3/5, 20, 0, 0⟩ 120 44100 ⟨7⟩
      = (⟨1, 60, 80, 1/2, EventKind.noteOn⟩, ⟨7⟩) :=
  applyHumanization_zero_identity ⟨1, 60, 80, 1/2, EventKind.noteOn⟩ ⟨3/5, 20, 0, 0⟩
    120 44100 ⟨7⟩ (by norm_num) (by norm_num) rfl rfl

/-- C4. Every event that is not a note-on passes through applySwing,
applyAccent and applyHumanization unchanged, for all style parameters,
tempos, sample rates and generator states. -/
theorem transforms_nonNoteOn_identity (e : Event) (style : StyleParameters)
    (bpm sampleRate : ℚ) (rng : RandomState) (hk : e.kind ≠ EventKind.noteOn) :
    applySwing e style bpm sampleRate = e ∧
    applyAccent e style bpm sampleRate = e ∧
    applyHumanization e style bpm sampleRate rng = (e, rng) := by
  unfold applySwing applyAccent applyHumanization
  rw [if_pos hk, if_pos hk, if_pos hk]
  exact ⟨rfl, rfl, rfl⟩

/-- Witness for C4 at a concrete note-off event. -/
theorem transforms_nonNoteOn_identity_witness :
    applySwing ⟨1, 60, 80, 1/2, EventKind.noteOff⟩ ⟨3/5, 20, 1, 1⟩ 120 44100
      = ⟨1, 60, 80, 1/2, EventKind.noteOff⟩ ∧
    applyAccent ⟨1, 60, 80, 1/2, EventKind.noteOff⟩ ⟨3/5, 20, 1, 1⟩ 120 44100
      = ⟨1, 60, 80, 1/2, EventKind.noteOff⟩ ∧
    applyHumanization ⟨1, 60, 80, 1/2, EventKind.noteOff⟩ ⟨3/5, 20, 1, 1⟩ 120 44100 ⟨7⟩
      = (⟨1, 60, 80, 1/2, EventKind.noteOff⟩, ⟨7⟩) :=
  transforms_nonNoteOn_identity ⟨1, 60, 80, 1/2, EventKind.noteOff⟩ ⟨3/5, 20, 1, 1⟩
    120 44100 ⟨7⟩ (by simp)

/-- One pass of the transformation chain of applyStyle
(StyleTransferAudioProcessor_Humanization.cpp:228-238):
swing, then accent, then humanization, threading the generator state. -/
def processEvent (style : StyleParameters) (bpm sampleRate : ℚ) (e : Event)
    (rng : RandomState) : Event × RandomState :=
  applyHumanization (applyAccent (applySwing e style bpm sampleRate) style bpm sampleRate)
    style bpm sampleRate rng

/-- juce::MidiBuffer::addEvent: insert an event keyed by its sample number
into the buffer, after all events with a key less than or equal to its own
(the buffer stays sorted; equal keys keep insertion order). -/
def addKeyed (x : ℤ × Event) : List (ℤ × Event) → List (ℤ × Event)
  | [] => [x]
  | y :: ys => if y.1 ≤ x.1 then y :: addKeyed x ys else x :: y :: ys

/-- The event loop of applyStyle: process each input event through the chain
and add it to the output buffer keyed by the int cast of timestamp *
sampleRate. -/
def applyStyleLoop (style : StyleParameters) (bpm sampleRate : ℚ) :
    List Event → RandomState → List (ℤ × Event) → List (ℤ × Event) × RandomState
  | [], rng, acc => (acc, rng)
  | e :: es, rng, acc =>
    applyStyleLoop style bpm sampleRate es (processEvent style bpm sampleRate e rng).2
      (addKeyed (truncToZero ((processEvent style bpm sampleRate e rng).1.timestamp
        * sampleRate), (processEvent style bpm sampleRate e rng).1) acc)

/-- applyStyle (StyleTransferAudioProcessor_Humanization.cpp:217-249): the
input buffer is replaced by the processed buffer built by the loop. -/
def applyStyle (events : List Event) (style : StyleParameters) (bpm sampleRate : ℚ)
    (rng : RandomState) : List (ℤ × Event) × RandomState :=
  applyStyleLoop style bpm sampleRate events rng []

/-- Specification-side companion for the ordering claim: the keyed processed
events listed in input order (no reordering), to compare applyStyle against. -/
def processedInOrder (style : StyleParameters) (bpm sampleRate : ℚ) :
    List Event → RandomState → List (ℤ × Event)
  | [], _ => []
  | e :: es, rng =>
    (truncToZero ((processEvent style bpm sampleRate e rng).1.timestamp * sampleRate),
      (processEvent style bpm sampleRate e rng).1)
      :: processedInOrder style bpm sampleRate es (processEvent style bpm sampleRate e rng).2

/-- C5. applyStyle is deterministic: equal input buffers, style snapshots,
tempo, sample rate and generator state give identical outputs, including the
order of emitted events and the final generator state. -/
theorem applyStyle_deterministic (evs1 evs2 : List Event) (st1 st2 : StyleParameters)
    (bpm1 bpm2 sr1 sr2 : ℚ) (r1 r2 : RandomState) (he : evs1 = evs2) (hs : st1 = st2)
    (hb : bpm1 = bpm2) (hr : sr1 = sr2) (hg : r1 = r2) :
    applyStyle evs1 st1 bpm1 sr1 r1 = applyStyle evs2 st2 bpm2 sr2 r2 := by
  rw [he, hs, hb, hr, hg]

/-- Witness for C5 on a concrete buffer of two events. -/
theorem applyStyle_deterministic_witness :
    applyStyle [⟨1, 60, 80, 0, EventKind.noteOn⟩, ⟨1, 62, 70, 1/4, EventKind.noteOff⟩]
        ⟨3/5, 20, 1/2, 1/2⟩ 120 44100 ⟨7⟩
      = applyStyle [⟨1, 60, 80, 0, EventKind.noteOn⟩, ⟨1, 62, 70, 1/4, EventKind.noteOff⟩]
          ⟨3/5, 20, 1/2, 1/2⟩ 120 44100 ⟨7⟩ :=
  applyStyle_deterministic _ _ _ _ _ _ _ _ _ _ rfl rfl rfl rfl rfl

lemma mem_addKeyed {x z : ℤ × Event} :
    ∀ {l : List (ℤ × Event)}, z ∈ addKeyed x l ↔ z = x ∨ z ∈ l := by
  intro l
  induction l with
  | nil => simp [addKeyed]
  | cons y ys ih =>
    unfold addKeyed
    split
    · simp only [List.mem_cons, ih]
      tauto
    · simp only [List.mem_cons]

lemma addKeyed_pairwise {x : ℤ × Event} {l : List (ℤ × Event)}
    (hl : l.Pairwise (fun a b => a.1 ≤ b.1)) :
    (addKeyed x l).Pairwise (fun a b => a.1 ≤ b.1) := by
  induction l with
  | nil => simp [addKeyed]
  | cons y ys ih =>
    rw [List.pairwise_cons] at hl
    obtain ⟨hy, hys⟩ := hl
    unfold addKeyed
    split
    · next h =>
      rw [List.pairwise_cons]
      refine ⟨?_, ih hys⟩
      intro z hz
      rcases mem_addKeyed.mp hz with hz | hz
      · rw [hz]; exact h
      · exact hy z hz
    · next h =>
      rw [List.pairwise_cons]
      refine ⟨?_, List.Pairwise.cons hy hys⟩
      intro z hz
      rcases List.mem_cons.mp hz with hz | hz
      · rw [hz]; omega
      · have := hy z hz; omega

lemma addKeyed_filter_ne {x : ℤ × Event} {k : ℤ} (hk : ¬ x.1 = k) :
    ∀ (l : List (ℤ × Event)),
      (addKeyed x l).filter (fun a => decide (a.1 = k))
        = l.filter (fun a => decide (a.1 = k)) := by
  intro l
  induction l with
  | nil => simp [addKeyed, hk]
  | cons y ys ih =>
    unfold addKeyed
    split
    · rw [List.filter_cons, List.filter_cons, ih]
    · rw [List.filter_cons, decide_eq_false hk]
      simp

lemma addKeyed_filter_eq {x : ℤ × Event} {k : ℤ} (hk : x.1 = k) :
    ∀ (l : List (ℤ × Event)), l.Pairwise (fun a b => a.1 ≤ b.1) →
      (addKeyed x l).filter (fun a => decide (a.1 = k))
        = l.filter (fun a => decide (a.1 = k)) ++ [x] := by
  intro l
  induction l with
  | nil => simp [addKeyed, hk]
  | cons y ys ih =>
    intro hp
    rw [List.pairwise_cons] at hp
    obtain ⟨hy, hys⟩ := hp
    unfold addKeyed
    split
    · rw [List.filter_cons, List.filter_cons, ih hys]
      split <;> rfl
    · next h =>
      have hnil : (y :: ys).filter (fun a => decide (a.1 = k)) = [] := by
        rw [List.filter_eq_nil_iff]
        intro z hz
        rcases List.mem_cons.mp hz with hz | hz
        · subst hz; simp only [decide_eq_true_eq]; omega
        · have := hy z hz
          simp only [decide_eq_true_eq]
          omega
      rw [List.filter_cons, hnil, decide_eq_true hk]
      simp

lemma applyStyleLoop_sorted_stable (style : StyleParameters) (bpm sampleRate : ℚ) :
    ∀ (es : List Event) (rng : RandomState) (acc : List (ℤ × Event)),
      acc.Pairwise (fun a b => a.1 ≤ b.1) →
      ((applyStyleLoop style bpm sampleRate es rng acc).1.Pairwise
          (fun a b => a.1 ≤ b.1) ∧
        ∀ k : ℤ,
          (applyStyleLoop style bpm sampleRate es rng acc).1.filter
              (fun a => decide (a.1 = k))
            = acc.filter (fun a => decide (a.1 = k))
              ++ (processedInOrder style bpm sampleRate es rng).filter
                  (fun a => decide (a.1 = k))) := by
  intro es
  induction es with
  | nil =>
    intro rng acc hacc
    refine ⟨hacc, ?_⟩
    intro k
    simp [applyStyleLoop, processedInOrder]
  | cons e es ih =>
    intro rng acc hacc
    rw [applyStyleLoop, processedInOrder]
    have hacc2 := addKeyed_pairwise
      (x := (truncToZero ((processEvent style bpm sampleRate e rng).1.timestamp * sampleRate),
        (processEvent style bpm sampleRate e rng).1)) hacc
    obtain ⟨hp, hf⟩ := ih (processEvent style bpm sampleRate e rng).2 _ hacc2
    refine ⟨hp, ?_⟩
    intro k
    rw [hf k, List.filter_cons]
    by_cases hxk :
        truncToZero ((processEvent style bpm sampleRate e rng).1.timestamp * sampleRate) = k
    · rw [addKeyed_filter_eq hxk acc hacc, decide_eq_true hxk]
      simp
    · rw [addKeyed_filter_ne hxk acc, decide_eq_false hxk]
      simp

/-- C6. For every input buffer, the output of applyStyle is sorted by the
final integer sample offset (int cast of timestamp * sampleRate), and events
with equal final offsets appear in the same relative order as in the input:
the filter of the output at each offset equals the filter of the processed
events taken in input order. -/
theorem applyStyle_ordered_and_stable (evs : List Event) (style : StyleParameters)
    (bpm sampleRate : ℚ) (rng : RandomState) :
    ((applyStyle evs style bpm sampleRate rng).1.Pairwise
        (fun a b : ℤ × Event => a.1 ≤ b.1)) ∧
    ∀ k : ℤ,
      (applyStyle evs style bpm sampleRate rng).1.filter
          (fun a : ℤ × Event => decide (a.1 = k))
        = (processedInOrder style bpm sampleRate evs rng).filter
            (fun a : ℤ × Event => decide (a.1 = k)) := by
  obtain ⟨hp, hf⟩ := applyStyleLoop_sorted_stable style bpm sampleRate evs rng []
    (List.Pairwise.nil)
  refine ⟨hp, ?_⟩
  intro k
  rw [applyStyle, hf k]
  simp

/-- A decoded control value (juce::var as used by the handlers): either a
float (doubles and int32 are both stored as doubles by oscMessageReceived)
or a bool. -/
inductive VarValue where
  | vFloat (x : ℚ)
  | vBool (b : Bool)
deriving DecidableEq, Repr

/-- juce::var::isDouble on the values producible by oscMessageReceived. -/
def VarValue.isDouble : VarValue → Bool
  | VarValue.vFloat _ => true
  | _ => false

/-- juce::var::isBool on the values producible by oscMessageReceived. -/
def VarValue.isBool : VarValue → Bool
  | VarValue.vBool _ => true
  | _ => false

/-- A decoded control message (the OSCMessage struct of PluginProcessor.h). -/
structure OSCMessage where
  address : String
  value : VarValue
  timestamp : ℚ
deriving DecidableEq, Repr

/-- The control-message ring of PluginProcessor.h: a capacity-1024 slot
array with a producer cursor and a consumer cursor. -/
structure RingState where
  buf : Fin 1024 → OSCMessage
  readPos : ℕ
  writePos : ℕ

/-- Wrap a cursor position onto a slot of the capacity-1024 ring. -/
def ringIndex (n : ℕ) : Fin 1024 := ⟨n % 1024, Nat.mod_lt _ (by norm_num)⟩

/-- Number of published, not yet consumed messages
(juce::AbstractFifo::getNumReady). -/
def numReady (s : RingState) : ℕ := s.writePos - s.readPos

/-- Modelled from the spec: the juce::AbstractFifo reservation used by
oscMessageReceived (PluginProcessor.cpp:339-372) is external to this
repository; per the spec the producer publishes into a reserved slot when
the ring is not full and drops the message otherwise. -/
def fifoPush (m : OSCMessage) (s : RingState) : RingState :=
  if numReady s < 1024 then
    { s with buf := Function.update s.buf (ringIndex s.writePos) m,
             writePos := s.writePos + 1 }
  else s

/-- The messages ready to be consumed, oldest first (FIFO order). -/
def readyList (s : RingState) : List OSCMessage :=
  (List.range (numReady s)).map (fun i => s.buf (ringIndex (s.readPos + i)))

/-- Modelled from the spec: the consumer loop of timerCallback
(PluginProcessor.cpp:409-422) reads one reserved slot per iteration for the
number of messages ready at the start of the pass. -/
def drainN : ℕ → RingState → List OSCMessage × RingState
  | 0, s => ([], s)
  | n+1, s =>
    if 0 < numReady s then
      (s.buf (ringIndex s.readPos)
          :: (drainN n { s with readPos := s.readPos + 1 }).1,
        (drainN n { s with readPos := s.readPos + 1 }).2)
    else drainN n s

/-- One drain pass of timerCallback: capture getNumReady, then read that
many slots in order. -/
def timerDrain (s : RingState) : List OSCMessage × RingState :=
  drainN (numReady s) s

lemma drainN_spec : ∀ (n : ℕ) (s : RingState), n ≤ numReady s →
    drainN n s = ((List.range n).map (fun i => s.buf (ringIndex (s.readPos + i))),
      { s with readPos := s.readPos + n }) := by
  intro n
  induction n with
  | zero =>
    intro s _
    simp [drainN]
  | succ n ih =>
    intro s hn
    have hpos : 0 < numReady s := by omega
    have hn2 : n ≤ numReady { s with readPos := s.readPos + 1 } := by
      unfold numReady at hn ⊢
      simp only
      omega
    rw [drainN, if_pos hpos, ih _ hn2]
    refine congrArg₂ Prod.mk ?_ ?_
    · rw [List.range_succ_eq_map, List.map_cons, List.map_map]
      refine congrArg₂ List.cons (by rw [Nat.add_zero]) ?_
      refine List.map_congr_left ?_
      intro i _
      simp only [Function.comp_apply]
      rw [show s.readPos + 1 + i = s.readPos + (i + 1) by omega]
    · simp only
      rw [show s.readPos + 1 + n = s.readPos + (n + 1) by omega]

/-- C7. For the capacity-1024 control-message ring: a publish into a full
ring drops the message and leaves the whole ring state (every slot and both
cursors) unchanged, and one drain pass returns exactly the messages that
were ready at its start, once each, in FIFO order, leaving none ready. -/
theorem controlRing_drop_when_full_and_drain_once (m : OSCMessage) (s : RingState) :
    (numReady s = 1024 → fifoPush m s = s) ∧
    (timerDrain s).1 = readyList s ∧
    numReady (timerDrain s).2 = 0 := by
  refine ⟨?_, ?_, ?_⟩
  · intro hfull
    unfold fifoPush
    rw [if_neg (by omega)]
  · rw [timerDrain, drainN_spec (numReady s) s le_rfl]
    rfl
  · rw [timerDrain, drainN_spec (numReady s) s le_rfl]
    unfold numReady
    simp only
    omega

/-- A concrete full ring used as witness input for the ring claim. -/
def fullRing : RingState :=
  ⟨fun _ => ⟨"/style/swing", VarValue.vFloat 1, 0⟩, 0, 1024⟩

/-- Witness for C7 at a concrete full ring. -/
theorem controlRing_drop_when_full_and_drain_once_witness :
    numReady fullRing = 1024 ∧
    fifoPush ⟨"/style/accent", VarValue.vFloat 2, 0⟩ fullRing = fullRing ∧
    (timerDrain fullRing).1 = readyList fullRing ∧
    numReady (timerDrain fullRing).2 = 0 :=
  ⟨by decide,
    (controlRing_drop_when_full_and_drain_once ⟨"/style/accent", VarValue.vFloat 2, 0⟩
      fullRing).1 (by decide),
    (controlRing_drop_when_full_and_drain_once ⟨"/style/accent", VarValue.vFloat 2, 0⟩
      fullRing).2.1,
    (controlRing_drop_when_full_and_drain_once ⟨"/style/accent", VarValue.vFloat 2, 0⟩
      fullRing).2.2⟩

/-- The live parameter state written by the control handlers: the four style
parameters plus the enable flag. -/
structure ParamState where
  swingRatio : ℚ
  accentAmount : ℚ
  humanizeTimingAmount : ℚ
  humanizeVelocityAmount : ℚ
  oscEnabled : Bool
deriving DecidableEq, Repr

/-- The per-message body of timerCallback
(backup_complex_plugin/PluginProcessor.cpp:425-482): each recognized float
address clamps its value to the declared range and assigns it; the enable
address takes a bool; everything else leaves the state untouched. -/
def applyControlMessage (p : ParamState) (m : OSCMessage) : ParamState :=
  if m.address = "/style/swing" then
    match m.value with
    | VarValue.vFloat x => { p with swingRatio := jlimitQ 0 1 x }
    | _ => p
  else if m.address = "/style/accent" then
    match m.value with
    | VarValue.vFloat x => { p with accentAmount := jlimitQ 0 50 x }
    | _ => p
  else if m.address = "/style/humanizeTiming" then
    match m.value with
    | VarValue.vFloat x => { p with humanizeTimingAmount := jlimitQ 0 1 x }
    | _ => p
  else if m.address = "/style/humanizeVelocity" then
    match m.value with
    | VarValue.vFloat x => { p with humanizeVelocityAmount := jlimitQ 0 1 x }
    | _ => p
  else if m.address = "/style/enable" then
    match m.value with
    | VarValue.vBool b => { p with oscEnabled := b }
    | _ => p
  else p

/-- handleOSCMessage of the simple variant
(StyleTransferAudioProcessor.cpp:208-238): swing and accent floats are
written through setSwingRatio / setAccentAmount as raw parameter values,
without clamping; enable takes a bool; everything else is ignored. -/
def handleOSCMessage (p : ParamState) (m : OSCMessage) : ParamState :=
  if m.address = "/style/swing" then
    match m.value with
    | VarValue.vFloat x => { p with swingRatio := x }
    | _ => p
  else if m.address = "/style/accent" then
    match m.value with
    | VarValue.vFloat x => { p with accentAmount := x }
    | _ => p
  else if m.address = "/style/enable" then
    match m.value with
    | VarValue.vBool b => { p with oscEnabled := b }
    | _ => p
  else p

/-- The declared host ranges of the four style parameters. -/
def paramsInRange (p : ParamState) : Prop :=
  0 ≤ p.swingRatio ∧ p.swingRatio ≤ 1 ∧
  0 ≤ p.accentAmount ∧ p.accentAmount ≤ 50 ∧
  0 ≤ p.humanizeTimingAmount ∧ p.humanizeTimingAmount ≤ 1 ∧
  0 ≤ p.humanizeVelocityAmount ∧ p.humanizeVelocityAmount ≤ 1

lemma jlimitQ_le {lo hi v : ℚ} (h : lo ≤ hi) :
    lo ≤ jlimitQ lo hi v ∧ jlimitQ lo hi v ≤ hi := by
  unfold jlimitQ
  split_ifs with h1 h2
  · exact ⟨le_rfl, h⟩
  · exact ⟨h, le_rfl⟩
  · exact ⟨le_of_not_lt h1, le_of_not_lt h2⟩

lemma applyControlMessage_preserves_ranges (p : ParamState) (m : OSCMessage)
    (hp : paramsInRange p) : paramsInRange (applyControlMessage p m) := by
  obtain ⟨h1, h2, h3, h4, h5, h6, h7, h8⟩ := hp
  unfold applyControlMessage
  rcases hv : m.value with x | b <;> split_ifs <;>
    simp only [paramsInRange] <;>
    refine ⟨?_, ?_, ?_, ?_, ?_, ?_, ?_, ?_⟩ <;>
    first
      | assumption
      | exact (jlimitQ_le (by norm_num)).1
      | exact (jlimitQ_le (by norm_num)).2

/-- C8 (amended). In the timerCallback drain path every recognized control
message value is clamped to its declared parameter range before assignment,
so starting from an in-range snapshot, any sequence of drained control
messages leaves the live snapshot in range (and no message is an error: the
handler is total). -/
theorem timerCallback_snapshot_stays_in_range (p : ParamState) (msgs : List OSCMessage)
    (hp : paramsInRange p) : paramsInRange (List.foldl applyControlMessage p msgs) := by
  induction msgs generalizing p with
  | nil => exact hp
  | cons m ms ih =>
    exact ih _ (applyControlMessage_preserves_ranges p m hp)

/-- Witness for the amended C8 theorem on a sequence holding an out-of-range
swing value and an unrecognized address. -/
theorem timerCallback_snapshot_stays_in_range_witness :
    paramsInRange ⟨1/2, 20, 0, 0, false⟩ ∧
    paramsInRange (List.foldl applyControlMessage ⟨1/2, 20, 0, 0, false⟩
      [⟨"/style/swing", VarValue.vFloat 5, 0⟩, ⟨"/style/other", VarValue.vFloat 99, 0⟩]) :=
  ⟨by refine ⟨?_, ?_, ?_, ?_, ?_, ?_, ?_, ?_⟩ <;> norm_num,
    timerCallback_snapshot_stays_in_range ⟨1/2, 20, 0, 0, false⟩
      [⟨"/style/swing", VarValue.vFloat 5, 0⟩, ⟨"/style/other", VarValue.vFloat 99, 0⟩]
      (by refine ⟨?_, ?_, ?_, ?_, ?_, ?_, ?_, ?_⟩ <;> norm_num)⟩

/-- C8 counterexample: the simple-variant handler (handleOSCMessage via
setSwingRatio) assigns the raw value without clamping, so a single
out-of-range control message leaves the live snapshot out of range. -/
theorem handleOSCMessage_unclamped_counterexample :
    ¬ paramsInRange (handleOSCMessage ⟨1/2, 20, 0, 0, false⟩
        ⟨"/style/swing", VarValue.vFloat 5, 0⟩) := by
  have heval : handleOSCMessage ⟨1/2, 20, 0, 0, false⟩ ⟨"/style/swing", VarValue.vFloat 5, 0⟩
      = ⟨5, 20, 0, 0, false⟩ := by rfl
  rw [heval]
  intro h
  have h2 := h.2.1
  norm_num at h2

/-- The recognition predicate of the timerCallback branches: a float-typed
value at one of the four style addresses, or a bool at the enable address. -/
def timerHandles (m : OSCMessage) : Bool :=
  ((m.address == "/style/swing" || m.address == "/style/accent"
      || m.address == "/style/humanizeTiming" || m.address == "/style/humanizeVelocity")
    && m.value.isDouble)
  || (m.address == "/style/enable" && m.value.isBool)

/-- The recognition predicate of the simple-variant handleOSCMessage. -/
def simpleHandles (m : OSCMessage) : Bool :=
  ((m.address == "/style/swing" || m.address == "/style/accent") && m.value.isDouble)
  || (m.address == "/style/enable" && m.value.isBool)

/-- C9. A control message whose value has the wrong type for its address, or
whose address is unrecognized, is discarded by both handlers: the parameter
state is returned unchanged and no error is possible (the handlers are
total). -/
theorem unhandled_messages_discarded (p : ParamState) (m : OSCMessage) :
    (timerHandles m = false → applyControlMessage p m = p) ∧
    (simpleHandles m = false → handleOSCMessage p m = p) := by
  constructor
  · intro h
    unfold timerHandles at h
    unfold applyControlMessage
    rcases hv : m.value with x | b <;> rw [hv] at h <;> split_ifs <;> simp_all [VarValue.isDouble, VarValue.isBool]
  · intro h
    unfold simpleHandles at h
    unfold handleOSCMessage
    rcases hv : m.value with x | b <;> rw [hv] at h <;> split_ifs <;> simp_all [VarValue.isDouble, VarValue.isBool]

/-- Witness for C9: a bool where a float is expected, and an unknown
address, both leave the state unchanged in both handlers. -/
theorem unhandled_messages_discarded_witness :
    timerHandles ⟨"/style/swing", VarValue.vBool true, 0⟩ = false ∧
    applyControlMessage ⟨1/2, 20, 0, 0, false⟩ ⟨"/style/swing", VarValue.vBool true, 0⟩
      = ⟨1/2, 20, 0, 0, false⟩ ∧
    simpleHandles ⟨"/style/unknown", VarValue.vFloat 3, 0⟩ = false ∧
    handleOSCMessage ⟨1/2, 20, 0, 0, false⟩ ⟨"/style/unknown", VarValue.vFloat 3, 0⟩
      = ⟨1/2, 20, 0, 0, false⟩ :=
  ⟨by decide,
    (unhandled_messages_discarded ⟨1/2, 20, 0, 0, false⟩
      ⟨"/style/swing", VarValue.vBool true, 0⟩).1 (by decide),
    by decide,
    (unhandled_messages_discarded ⟨1/2, 20, 0, 0, false⟩
      ⟨"/style/unknown", VarValue.vFloat 3, 0⟩).2 (by decide)⟩
